import Mathlib

/-!
Shallow embedding of the batching/forwarding engine of azurelogs2oci.

Source files embedded:
* `src/function/EventHubsNamespaceToOCIStreaming/eventhub_to_oci/__init__.py`
  (`OciStreamSender.estimate_batch_bytes`, `OciStreamSender.send_batch`,
  `OciStreamSender.send_with_limits`, `HubBuffer`, `main`)
* `src/scripts/eventhub_consumer.py`
  (`OciStreamSender.send_with_size_limit`, `EventHubDrainer._flush_if_needed`)

Modelling conventions:
* A payload (a Python `str`) is represented by the list of bytes of its UTF-8
  encoding (`Payload := List Nat`), since only the byte content matters to the
  batching engine.
* The OCI sink (`StreamClient.put_messages`) is an external collaborator; it is
  modelled by an oracle `Resp` mapping the list of payloads of one call to
  either an exception (`Except.error ()`, a whole-dispatch failure) or the list
  of per-entry error flags of the response (`true` = the entry carries an
  error marker), exactly what `send_batch` inspects.
* Every function that can make sink calls additionally returns the trace of
  `put_messages` invocations it performed (the list of payload batches passed
  to the network call, in order), so that "no dispatch call is made" is an
  observable statement.  `send_batch` returns early on an empty payload list
  without any network call, hence contributes nothing to the trace.
* Python exceptions are modelled by `Except Unit`: a raising method returns
  the state as mutated up to the raise point together with `Except.error ()`.
-/

namespace AzureLogs2OCI

/-- A message payload: the bytes of the UTF-8 encoding of the Python string. -/
abbrev Payload := List Nat

/-- The standard base64 alphabet, as byte values (source: Python `b64encode`). -/
def b64Table : List Nat :=
  "ABCDEFGHIJKLMNOPQRSTUVWXYZabcdefghijklmnopqrstuvwxyz0123456789+/".toList.map Char.toNat

/-- Character of the base64 alphabet at index `i` (0 ≤ i < 64). -/
def b64char (i : Nat) : Nat := b64Table.getD i 0

/-- Base64 encoding of a byte sequence, as produced by Python's
`base64.b64encode`: each 3-byte group yields 4 alphabet characters and a final
partial group of 1 or 2 bytes is padded with `=` (byte 61) to 4 characters. -/
def b64encode : List Nat → List Nat
  | [] => []
  | [b1] => [b64char (b1 / 4), b64char (b1 % 4 * 16), 61, 61]
  | [b1, b2] => [b64char (b1 / 4), b64char (b1 % 4 * 16 + b2 / 16), b64char (b2 % 16 * 4), 61]
  | b1 :: b2 :: b3 :: rest =>
      b64char (b1 / 4) :: b64char (b1 % 4 * 16 + b2 / 16) ::
        b64char (b2 % 16 * 4 + b3 / 64) :: b64char (b3 % 64) :: b64encode rest

theorem b64encode_length : ∀ l : List Nat, (b64encode l).length = 4 * ((l.length + 2) / 3)
  | [] => rfl
  | [_] => by simp [b64encode]
  | [_, _] => by simp [b64encode]
  | _ :: _ :: _ :: rest => by
      simp only [b64encode, List.length_cons, b64encode_length rest]
      omega

/-- Embedding of `OciStreamSender.estimate_batch_bytes` (identical in both source files):
sum of the base64-encoded length of each payload plus 50 bytes of per-message
overhead. -/
def estimate_batch_bytes (messages : List Payload) : Nat :=
  (messages.map (fun m => (b64encode m).length)).sum + messages.length * 50

/-- Sink oracle: the response of one `put_messages` call on the given payload
batch, either a raised exception or the per-entry error flags. -/
abbrev Resp := List Payload → Except Unit (List Bool)

/-- A sink oracle that never raises: per-item results given by `g`. -/
def respTotal (g : List Payload → List Bool) : Resp := fun b => Except.ok (g b)

/-- A sink oracle whose calls all succeed with every entry accepted. -/
def respNoFail : Resp := fun b => Except.ok (b.map (fun _ => false))

/-- A sink oracle whose every call raises (network/auth failure). -/
def respFail : Resp := fun _ => Except.error ()

/-- Embedding of `OciStreamSender.send_batch`: returns `(0,0)` immediately on an empty
payload list (no network call); otherwise performs one `put_messages` call and
counts entries without an error marker as sent, the others as failed.
The second component is the trace of network calls made. -/
def send_batch (resp : Resp) (payloads : List Payload) :
    Except Unit (Nat × Nat) × List (List Payload) :=
  if payloads.isEmpty then (Except.ok (0, 0), [])
  else
    match resp payloads with
    | Except.error e => (Except.error e, [payloads])
    | Except.ok entries =>
        (Except.ok (entries.countP (fun r => !r), entries.countP (fun r => r)), [payloads])

/-- Loop body of `OciStreamSender.send_with_limits`: walks the remaining
payloads with the current in-progress `batch` and the accumulated
`(total_sent, total_failed, batches)` counters.  When adding the next payload
would make the candidate batch exceed `max_count` or `max_bytes`, the current
batch is dispatched (`send_batch`) and the counter `batches` is incremented,
then a new batch containing just that payload is started.  After the loop the
in-progress batch, if non-empty, is dispatched as well. -/
def swlAux (resp : Resp) (maxBytes maxCount : Nat) :
    List Payload → List Payload → Nat × Nat × Nat →
      Except Unit (Nat × Nat × Nat) × List (List Payload)
  | batch, [], acc =>
      if batch.isEmpty then (Except.ok acc, [])
      else
        match send_batch resp batch with
        | (Except.error e, c) => (Except.error e, c)
        | (Except.ok (s, f), c) => (Except.ok (acc.1 + s, acc.2.1 + f, acc.2.2 + 1), c)
  | batch, p :: rest, acc =>
      if (batch ++ [p]).length > maxCount ∨ estimate_batch_bytes (batch ++ [p]) > maxBytes then
        match send_batch resp batch with
        | (Except.error e, c) => (Except.error e, c)
        | (Except.ok (s, f), c) =>
            let r := swlAux resp maxBytes maxCount [p] rest (acc.1 + s, acc.2.1 + f, acc.2.2 + 1)
            (r.1, c ++ r.2)
      else swlAux resp maxBytes maxCount (batch ++ [p]) rest acc

/-- Embedding of `OciStreamSender.send_with_limits`: greedy left-to-right packing of
`payloads` into batches respecting `max_bytes`/`max_count`, returning
`(total_sent, total_failed, batches)` and the trace of network calls. -/
def send_with_limits (resp : Resp) (payloads : List Payload) (maxBytes maxCount : Nat) :
    Except Unit (Nat × Nat × Nat) × List (List Payload) :=
  swlAux resp maxBytes maxCount [] payloads (0, 0, 0)

/-- The method `OciStreamSender.send_with_size_limit` of `src/scripts/eventhub_consumer.py`
is, line for line, the same algorithm as `send_with_limits` of the function
app (same candidate construction, same threshold test, same dispatch and
counter updates), so it is embedded by the same definition. -/
def send_with_size_limit (resp : Resp) (payloads : List Payload) (maxBytes maxCount : Nat) :
    Except Unit (Nat × Nat × Nat) × List (List Payload) :=
  send_with_limits resp payloads maxBytes maxCount

/-- The sequence of batch-close events of the `send_with_limits` loop: the
arguments of the successive `send_batch` calls, in order (including a possibly
empty batch closed when the very first candidate already violates the limits).
This is the call structure of the loop, independent of the sink's responses. -/
def closeList (maxBytes maxCount : Nat) : List Payload → List Payload → List (List Payload)
  | batch, [] => if batch.isEmpty then [] else [batch]
  | batch, p :: rest =>
      if (batch ++ [p]).length > maxCount ∨ estimate_batch_bytes (batch ++ [p]) > maxBytes then
        batch :: closeList maxBytes maxCount [p] rest
      else closeList maxBytes maxCount (batch ++ [p]) rest

/-- The `batches` counter of a `send_with_limits` result (0 if it raised). -/
def batchCountOf (r : Except Unit (Nat × Nat × Nat)) : Nat :=
  match r with
  | Except.ok (_, _, b) => b
  | Except.error _ => 0

/-- State of `HubBuffer` (function app): the configured limits, the pending
buffer `buf`, and the running totals `sent`, `failed`, `batches`. -/
structure HubBuffer where
  max_count : Nat
  max_bytes : Nat
  buf : List Payload
  sent : Nat
  failed : Nat
  batches : Nat
deriving DecidableEq

/-- Embedding of `HubBuffer._flush_if_needed`: no-op on an empty buffer; otherwise, when
forced or when `len(buf) ≥ max_count` or `estimate_batch_bytes(buf) ≥
max_bytes`, hands the whole buffer to `send_with_limits`, adds the returned
counts to the running totals and clears the buffer.  All mutations happen
after the send call returns, so a raise inside the send leaves the state
untouched.  Returns the new state, the exception status, and the trace of
network calls. -/
def HubBuffer.flush_if_needed (resp : Resp) (force : Bool) (hb : HubBuffer) :
    HubBuffer × Except Unit Unit × List (List Payload) :=
  if hb.buf.isEmpty then (hb, Except.ok (), [])
  else
    if force = true ∨ hb.buf.length ≥ hb.max_count
        ∨ estimate_batch_bytes hb.buf ≥ hb.max_bytes then
      match send_with_limits resp hb.buf hb.max_bytes hb.max_count with
      | (Except.error e, c) => (hb, Except.error e, c)
      | (Except.ok (s, f, b), c) =>
          ({ hb with
              sent := hb.sent + s
              failed := hb.failed + f
              batches := hb.batches + b
              buf := [] }, Except.ok (), c)
    else (hb, Except.ok (), [])

/-- Embedding of `HubBuffer.add`: appends the payload to the buffer, then runs the
non-forced flush eligibility check. -/
def HubBuffer.add (resp : Resp) (payload : Payload) (hb : HubBuffer) :
    HubBuffer × Except Unit Unit × List (List Payload) :=
  HubBuffer.flush_if_needed resp false { hb with buf := hb.buf ++ [payload] }

/-- Embedding of `HubBuffer.flush`: a forced flush. -/
def HubBuffer.flush (resp : Resp) (hb : HubBuffer) :
    HubBuffer × Except Unit Unit × List (List Payload) :=
  HubBuffer.flush_if_needed resp true hb

/-- Python `not body or body.isspace()` of `main` for a UTF-8 payload: true on
the empty payload and on payloads made only of ASCII whitespace bytes (the
whitespace classes relevant to the log payloads handled here). -/
def isBlankPayload (p : Payload) : Bool :=
  p.all (fun b => b = 32 || b = 9 || b = 10 || b = 13 || b = 11 || b = 12)

/-- One iteration of the event loop of `main`: the state is
`(buffer, processed_count, error_count)`.  An event is `none` when its body
raises `UnicodeDecodeError` (the `except` arm increments `error_count` and
continues), or `some body` with the decoded payload.  Blank bodies are
skipped without touching any counter.  Otherwise the body is added to the
buffer and `processed_count` is incremented; if the add raised (a sink
failure inside its opportunistic flush), the generic `except Exception` arm
increments `error_count` instead, keeping the buffer state the add left. -/
def mainStep (resp : Resp) (st : HubBuffer × Nat × Nat) (e : Option Payload) :
    HubBuffer × Nat × Nat :=
  match e with
  | none => (st.1, st.2.1, st.2.2 + 1)
  | some body =>
      if isBlankPayload body then st
      else
        match HubBuffer.add resp body st.1 with
        | (hb, Except.ok _, _) => (hb, st.2.1 + 1, st.2.2)
        | (hb, Except.error _, _) => (hb, st.2.1, st.2.2 + 1)

/-- The event loop of `main` over a delivered event list. -/
def mainLoop (resp : Resp) (events : List (Option Payload)) (st : HubBuffer × Nat × Nat) :
    HubBuffer × Nat × Nat :=
  events.foldl (mainStep resp) st

/-- The bounded-batch invocation of `main` after the sender is built: a fresh
buffer with the configured limits, the event loop, then the final forced
flush.  Returns the final buffer state, `processed_count`, `error_count`, and
the exception status of the final flush.  The reported totals are
`sent = buffer.sent` and `failed = buffer.failed + error_count`. -/
def mainRun (resp : Resp) (maxCount maxBytes : Nat) (events : List (Option Payload)) :
    HubBuffer × Nat × Nat × Except Unit Unit :=
  let st := mainLoop resp events (⟨maxCount, maxBytes, [], 0, 0, 0⟩, 0, 0)
  let fl := HubBuffer.flush resp st.1
  (fl.1, st.2.1, st.2.2, fl.2.1)

/-- State of `EventHubDrainer` (consumer script): the optional OCI sender
(`none` in log-only mode), the batch limits, the pending buffer, and the
running totals. -/
structure EventHubDrainer where
  oci_sender : Option Resp
  max_batch_bytes : Nat
  max_batch_count : Nat
  buffer : List Payload
  messages_sent : Nat
  messages_failed : Nat
  batches : Nat

/-- Embedding of `EventHubDrainer._flush_if_needed`: with no OCI sender (log-only mode), a
forced call on a non-empty buffer prints one "Would send ... (logging only)"
notice and clears the buffer, any other call does nothing, and no sink call is
ever made.  With a sender: no-op on an empty buffer; a forced call copies the
buffer, clears it, then sends the copy through `send_with_size_limit` and adds
the counts (so a raise inside the send still leaves the buffer cleared); a
non-forced call does the same only when `len(buffer) ≥ max_batch_count` or the
estimate is `≥ max_batch_bytes`.  Returns the new state, the number of
log-only notices printed, the trace of network calls, and the exception
status. -/
def EventHubDrainer.flush_if_needed (st : EventHubDrainer) (force : Bool) :
    EventHubDrainer × Nat × List (List Payload) × Except Unit Unit :=
  match st.oci_sender with
  | none =>
      if force = true ∧ ¬ st.buffer.isEmpty then
        ({ st with buffer := [] }, 1, [], Except.ok ())
      else (st, 0, [], Except.ok ())
  | some resp =>
      if st.buffer.isEmpty then (st, 0, [], Except.ok ())
      else
        if force = true then
          match send_with_size_limit resp st.buffer st.max_batch_bytes st.max_batch_count with
          | (Except.error e, c) => ({ st with buffer := [] }, 0, c, Except.error e)
          | (Except.ok (s, f, b), c) =>
              ({ st with
                  buffer := []
                  messages_sent := st.messages_sent + s
                  messages_failed := st.messages_failed + f
                  batches := st.batches + b },
               0, c, Except.ok ())
        else
          if st.buffer.length ≥ st.max_batch_count
              ∨ estimate_batch_bytes st.buffer ≥ st.max_batch_bytes then
            match send_with_size_limit resp st.buffer st.max_batch_bytes st.max_batch_count with
            | (Except.error e, c) => ({ st with buffer := [] }, 0, c, Except.error e)
            | (Except.ok (s, f, b), c) =>
                ({ st with
                    buffer := []
                    messages_sent := st.messages_sent + s
                    messages_failed := st.messages_failed + f
                    batches := st.batches + b },
                 0, c, Except.ok ())
          else (st, 0, [], Except.ok ())

/-! Structural lemmas about the `send_with_limits` loop. -/

theorem closeList_flatten (maxBytes maxCount : Nat) :
    ∀ (l batch : List Payload), (closeList maxBytes maxCount batch l).flatten = batch ++ l := by
  intro l
  induction l with
  | nil =>
      intro batch
      rcases batch with _ | ⟨x, xs⟩ <;> simp [closeList]
  | cons p rest ih =>
      intro batch
      simp only [closeList]
      by_cases h : (batch ++ [p]).length > maxCount ∨ estimate_batch_bytes (batch ++ [p]) > maxBytes
      · rw [if_pos h]
        simp [ih [p]]
      · rw [if_neg h, ih (batch ++ [p])]
        simp

theorem closeList_ne_nil (maxBytes maxCount : Nat) :
    ∀ (l batch : List Payload), batch ≠ [] →
      ∀ b ∈ closeList maxBytes maxCount batch l, b ≠ [] := by
  intro l
  induction l with
  | nil =>
      intro batch hb b hmem
      rcases batch with _ | ⟨x, xs⟩
      · exact absurd rfl hb
      · simp [closeList] at hmem
        simp [hmem]
  | cons p rest ih =>
      intro batch hb b hmem
      simp only [closeList] at hmem
      by_cases h : (batch ++ [p]).length > maxCount ∨ estimate_batch_bytes (batch ++ [p]) > maxBytes
      · rw [if_pos h, List.mem_cons] at hmem
        rcases hmem with rfl | hmem
        · exact hb
        · exact ih [p] (by simp) b hmem
      · rw [if_neg h] at hmem
        exact ih (batch ++ [p]) (by simp) b hmem

theorem flatten_filter_nonempty :
    ∀ L : List (List Payload), (L.filter (fun b => !b.isEmpty)).flatten = L.flatten
  | [] => rfl
  | b :: t => by
      cases b <;> simp [List.filter_cons, flatten_filter_nonempty t]

/-- Under a sink that never raises, the `send_with_limits` loop returns `ok`,
its `batches` counter counts exactly the batch-close events (`closeList`), and
its network-call trace is exactly the non-empty closed batches. -/
theorem swlAux_respTotal (g : List Payload → List Bool) (maxBytes maxCount : Nat) :
    ∀ (l batch : List Payload) (acc : Nat × Nat × Nat),
      ∃ s f : Nat,
        swlAux (respTotal g) maxBytes maxCount batch l acc
          = (Except.ok (s, f, acc.2.2 + (closeList maxBytes maxCount batch l).length),
             (closeList maxBytes maxCount batch l).filter (fun b => !b.isEmpty)) := by
  intro l
  induction l with
  | nil =>
      intro batch acc
      rcases batch with _ | ⟨x, xs⟩
      · exact ⟨acc.1, acc.2.1, by simp [swlAux, closeList]⟩
      · refine ⟨acc.1 + (g (x :: xs)).countP (fun r => !r),
                acc.2.1 + (g (x :: xs)).countP (fun r => r), ?_⟩
        simp [swlAux, closeList, send_batch, respTotal]
  | cons p rest ih =>
      intro batch acc
      by_cases hc : (batch ++ [p]).length > maxCount ∨ estimate_batch_bytes (batch ++ [p]) > maxBytes
      · rcases batch with _ | ⟨x, xs⟩
        · obtain ⟨s, f, hr⟩ := ih [p] (acc.1, acc.2.1, acc.2.2 + 1)
          refine ⟨s, f, ?_⟩
          simp only [swlAux, closeList, if_pos hc]
          simp [send_batch, respTotal, hr]
          omega
        · obtain ⟨s, f, hr⟩ :=
            ih [p] (acc.1 + (g (x :: xs)).countP (fun r => !r),
                    acc.2.1 + (g (x :: xs)).countP (fun r => r), acc.2.2 + 1)
          refine ⟨s, f, ?_⟩
          simp only [swlAux, closeList, if_pos hc]
          simp [send_batch, respTotal, hr]
          omega
      · obtain ⟨s, f, hr⟩ := ih (batch ++ [p]) acc
        refine ⟨s, f, ?_⟩
        simp only [swlAux, closeList, if_neg hc]
        exact hr

/-- Invariant of the greedy loop: provided `maxCount ≥ 1`, every closed batch
is empty, within both limits, or an oversized singleton. -/
theorem closeList_bounded (maxBytes maxCount : Nat) (h : 1 ≤ maxCount) :
    ∀ (l batch : List Payload),
      (batch = [] ∨ (batch.length ≤ maxCount ∧ estimate_batch_bytes batch ≤ maxBytes)
        ∨ (batch.length = 1 ∧ estimate_batch_bytes batch > maxBytes)) →
      ∀ b ∈ closeList maxBytes maxCount batch l,
        b = [] ∨ (b.length ≤ maxCount ∧ estimate_batch_bytes b ≤ maxBytes)
        ∨ (b.length = 1 ∧ estimate_batch_bytes b > maxBytes) := by
  intro l
  induction l with
  | nil =>
      intro batch hinv b hmem
      rcases batch with _ | ⟨x, xs⟩
      · simp [closeList] at hmem
      · simp [closeList] at hmem
        rw [hmem]
        exact hinv
  | cons p rest ih =>
      intro batch hinv b hmem
      simp only [closeList] at hmem
      by_cases hc : (batch ++ [p]).length > maxCount ∨ estimate_batch_bytes (batch ++ [p]) > maxBytes
      · rw [if_pos hc, List.mem_cons] at hmem
        rcases hmem with rfl | hmem
        · exact hinv
        · refine ih [p] ?_ b hmem
          by_cases hp : estimate_batch_bytes [p] ≤ maxBytes
          · exact Or.inr (Or.inl ⟨by simpa using h, hp⟩)
          · exact Or.inr (Or.inr ⟨by simp, by omega⟩)
      · rw [if_neg hc] at hmem
        refine ih (batch ++ [p]) ?_ b hmem
        push_neg at hc
        exact Or.inr (Or.inl ⟨hc.1, hc.2⟩)

/-- C1: for every payload sequence, every `maxCount ≥ 1` and `maxBytes`, the
concatenation, in dispatch order, of all payload batches that
`send_with_limits` (= `send_with_size_limit`) hands to the sink equals the
input sequence exactly: order preserved, no payload dropped, none duplicated,
none split across batches (the sink calls themselves not raising). -/
theorem send_with_limits_concat_eq_input (g : List Payload → List Bool)
    (payloads : List Payload) (maxBytes maxCount : Nat) (_h : 1 ≤ maxCount) :
    ((send_with_limits (respTotal g) payloads maxBytes maxCount).2).flatten = payloads := by
  obtain ⟨s, f, hr⟩ := swlAux_respTotal g maxBytes maxCount payloads [] (0, 0, 0)
  rw [send_with_limits, hr]
  simp [flatten_filter_nonempty, closeList_flatten]

theorem send_with_limits_concat_eq_input_witness :
    ((send_with_limits (respTotal (fun b => b.map (fun _ => false))) [[97], [98], [99]] 60 2).2).flatten
      = [[97], [98], [99]] :=
  send_with_limits_concat_eq_input (fun b => b.map (fun _ => false)) [[97], [98], [99]] 60 2
    (by decide)

/-- C2 counterexample: with `maxCount = 0` (and `maxBytes` large), the two
payloads "a", "b" are dispatched as two singleton batches, each of which has
`count = 1 > maxCount` without being an oversized singleton — so the claim's
batch bound, quantified over every `maxCount`, fails on the code. -/
theorem send_with_limits_bound_cex :
    ∃ b ∈ (send_with_limits respNoFail [[97], [98]] 1048576 0).2,
      ¬ ((b.length ≤ 0 ∧ estimate_batch_bytes b ≤ 1048576)
         ∨ (b.length = 1 ∧ estimate_batch_bytes b > 1048576)) := by decide

/-- C2 (amended with `maxCount ≥ 1`): every batch handed to the sink's
dispatch call satisfies `count ≤ maxCount` and `estimate ≤ maxBytes`, except a
singleton whose one item alone has `estimate > maxBytes`, which is dispatched
as-is.  (Batches handed to the sink are non-empty by construction.) -/
theorem send_with_limits_batches_bounded (g : List Payload → List Bool)
    (payloads : List Payload) (maxBytes maxCount : Nat) (h : 1 ≤ maxCount) :
    ∀ b ∈ (send_with_limits (respTotal g) payloads maxBytes maxCount).2,
      (b.length ≤ maxCount ∧ estimate_batch_bytes b ≤ maxBytes)
      ∨ (b.length = 1 ∧ estimate_batch_bytes b > maxBytes) := by
  obtain ⟨s, f, hr⟩ := swlAux_respTotal g maxBytes maxCount payloads [] (0, 0, 0)
  rw [send_with_limits, hr]
  intro b hb
  rw [List.mem_filter] at hb
  obtain ⟨hmem, hne⟩ := hb
  have hbn : b ≠ [] := by
    rcases b with _ | ⟨x, xs⟩
    · simp at hne
    · simp
  have := closeList_bounded maxBytes maxCount h payloads [] (Or.inl rfl) b hmem
  rcases this with hnil | hok
  · exact absurd hnil hbn
  · exact hok

theorem send_with_limits_batches_bounded_witness :
    (([[97]] : List Payload).length ≤ 2 ∧ estimate_batch_bytes [[97]] ≤ 100)
    ∨ (([[97]] : List Payload).length = 1 ∧ estimate_batch_bytes [[97]] > 100) :=
  send_with_limits_batches_bounded (fun b => b.map (fun _ => false)) [[97]] 100 2 (by decide)
    [[97]] (by decide)

/-- C6: `estimate_batch_bytes` equals the sum over the payloads of the base64
length of the payload's UTF-8 bytes — `4 * ⌈n / 3⌉` for `n` bytes — plus the
fixed 50-byte per-item overhead times the number of payloads; in particular
the estimate of the empty list is 0. -/
theorem estimate_batch_bytes_closed_form (messages : List Payload) :
    estimate_batch_bytes messages
      = (messages.map (fun m => 4 * ((m.length + 2) / 3))).sum + 50 * messages.length
    ∧ estimate_batch_bytes [] = 0 := by
  constructor
  · simp [estimate_batch_bytes, b64encode_length, Nat.mul_comm]
  · rfl

/-- C9: whenever the first payload's singleton candidate already violates the
limits (`maxCount < 1` or an oversized first item), the loop closes the empty
in-progress batch: `send_batch` on the empty batch is a no-op returning
`(0, 0)` with no network call, yet the `batches` counter is still
incremented, so the returned batch count exceeds the number of non-empty
batches actually dispatched to the sink by one — it counts batch-close
events, not sink dispatches. -/
theorem batch_counter_counts_empty_closes (g : List Payload → List Bool)
    (maxBytes maxCount : Nat) (p : Payload) (rest : List Payload)
    (h : 1 > maxCount ∨ estimate_batch_bytes [p] > maxBytes) :
    batchCountOf (send_with_limits (respTotal g) (p :: rest) maxBytes maxCount).1
      = ((send_with_limits (respTotal g) (p :: rest) maxBytes maxCount).2).length + 1
    ∧ send_batch (respTotal g) [] = (Except.ok (0, 0), []) := by
  constructor
  · obtain ⟨s, f, hr⟩ := swlAux_respTotal g maxBytes maxCount (p :: rest) [] (0, 0, 0)
    rw [send_with_limits, hr]
    have hviol : (([] : List Payload) ++ [p]).length > maxCount
        ∨ estimate_batch_bytes (([] : List Payload) ++ [p]) > maxBytes := by
      simpa using h
    have hclose : closeList maxBytes maxCount [] (p :: rest)
        = [] :: closeList maxBytes maxCount [p] rest := by
      simp only [closeList]
      rw [if_pos hviol]
    rw [hclose]
    have hne : ∀ b ∈ closeList maxBytes maxCount [p] rest, b ≠ [] :=
      closeList_ne_nil maxBytes maxCount rest [p] (by simp)
    have hfilter : (closeList maxBytes maxCount [p] rest).filter (fun b => !b.isEmpty)
        = closeList maxBytes maxCount [p] rest := by
      rw [List.filter_eq_self]
      intro a ha
      rcases ha2 : a with _ | ⟨y, ys⟩
      · exact absurd ha2 (hne a ha)
      · simp
    simp [batchCountOf, hfilter, List.filter_cons]
  · rfl

theorem batch_counter_counts_empty_closes_witness :
    batchCountOf (send_with_limits (respTotal (fun _ => [])) [[97]] 10 1).1
      = ((send_with_limits (respTotal (fun _ => [])) [[97]] 10 1).2).length + 1
    ∧ send_batch (respTotal (fun _ => [])) [] = (Except.ok (0, 0), []) :=
  batch_counter_counts_empty_closes (fun _ => []) 10 1 [97] [] (by decide)

instance {ε α : Type} [DecidableEq ε] [DecidableEq α] : DecidableEq (Except ε α) := fun x y =>
  match x, y with
  | Except.ok a, Except.ok b => decidable_of_iff (a = b) (by simp)
  | Except.error a, Except.error b => decidable_of_iff (a = b) (by simp)
  | Except.ok _, Except.error _ => isFalse (fun hc => by cases hc)
  | Except.error _, Except.ok _ => isFalse (fun hc => by cases hc)

theorem isEmpty_eq_false_of_ne_nil {l : List Payload} (h : l ≠ []) : l.isEmpty = false := by
  rcases l with _ | ⟨x, xs⟩
  · exact absurd rfl h
  · rfl

/-- C3: a forced flush always empties the buffer and only adds to the running
totals, for every buffer state (thresholds met or not) and every per-item
result the sink reports (failed items are counted, not retried, not
retained); on an empty buffer it is a no-op that makes no dispatch call. -/
theorem hub_flush_force_empties (g : List Payload → List Bool) (hb : HubBuffer) :
    (∃ s f b c, HubBuffer.flush (respTotal g) hb
        = (⟨hb.max_count, hb.max_bytes, [], hb.sent + s, hb.failed + f, hb.batches + b⟩,
           Except.ok (), c))
    ∧ HubBuffer.flush (respTotal g) ⟨hb.max_count, hb.max_bytes, [], hb.sent, hb.failed, hb.batches⟩
        = (⟨hb.max_count, hb.max_bytes, [], hb.sent, hb.failed, hb.batches⟩,
           Except.ok (), []) := by
  obtain ⟨mc, mb, buf, sn, fl, bt⟩ := hb
  constructor
  · rcases buf with _ | ⟨x, xs⟩
    · exact ⟨0, 0, 0, [], by simp [HubBuffer.flush, HubBuffer.flush_if_needed]⟩
    · obtain ⟨s, f, hr⟩ := swlAux_respTotal g mb mc (x :: xs) [] (0, 0, 0)
      refine ⟨s, f, (closeList mb mc [] (x :: xs)).length,
              (closeList mb mc [] (x :: xs)).filter (fun b => !b.isEmpty), ?_⟩
      simp only [HubBuffer.flush, HubBuffer.flush_if_needed, send_with_limits]
      rw [if_pos (Or.inl trivial), hr]
      simp
  · rfl

/-- C4 counterexample: with `max_count = 0` and an empty buffer, the
eligibility condition `len(buffer) ≥ maxCount` holds, yet a non-forced flush
is a no-op that makes no dispatch call (the empty-buffer early return wins) —
so the claim's "dispatches exactly when len ≥ maxCount or estimate ≥
maxBytes", quantified over every buffer state, fails on the code. -/
theorem hub_nonforced_dispatch_cex :
    (⟨0, 5, [], 0, 0, 0⟩ : HubBuffer).buf.length ≥ (⟨0, 5, [], 0, 0, 0⟩ : HubBuffer).max_count
    ∧ HubBuffer.flush_if_needed respNoFail false ⟨0, 5, [], 0, 0, 0⟩
        = (⟨0, 5, [], 0, 0, 0⟩, Except.ok (), []) := by decide

/-- C4 (amended): a non-forced flush on a buffer strictly below both
thresholds is a no-op — state (buffer and the totals sent/failed/batches)
unchanged and no dispatch call made — and a non-forced flush dispatches
exactly when the buffer is non-empty and `len(buffer) ≥ maxCount` or
`estimate(buffer) ≥ maxBytes`. -/
theorem hub_nonforced_flush_spec (resp : Resp) (g : List Payload → List Bool) (hb : HubBuffer) :
    (hb.buf.length < hb.max_count → estimate_batch_bytes hb.buf < hb.max_bytes →
       HubBuffer.flush_if_needed resp false hb = (hb, Except.ok (), []))
    ∧ ((HubBuffer.flush_if_needed (respTotal g) false hb).2.2 ≠ []
        ↔ hb.buf ≠ [] ∧ (hb.buf.length ≥ hb.max_count
            ∨ estimate_batch_bytes hb.buf ≥ hb.max_bytes)) := by
  constructor
  · intro hlen hest
    simp only [HubBuffer.flush_if_needed]
    by_cases hie : hb.buf.isEmpty
    · rw [if_pos hie]
    · rw [if_neg hie, if_neg (by simp; omega)]
  · by_cases hbuf : hb.buf = []
    · simp only [HubBuffer.flush_if_needed, hbuf, List.isEmpty_nil]
      simp
    · have hie := isEmpty_eq_false_of_ne_nil hbuf
      by_cases hcond : hb.buf.length ≥ hb.max_count ∨ estimate_batch_bytes hb.buf ≥ hb.max_bytes
      · obtain ⟨s, f, hr⟩ := swlAux_respTotal g hb.max_bytes hb.max_count hb.buf [] (0, 0, 0)
        simp only [HubBuffer.flush_if_needed, hie]
        rw [if_neg (by simp), if_pos (Or.inr hcond)]
        simp only [send_with_limits]
        rw [hr]
        constructor
        · intro _
          exact ⟨hbuf, hcond⟩
        · intro _
          intro hfe
          have hj := congrArg List.flatten hfe
          rw [flatten_filter_nonempty, closeList_flatten] at hj
          simp at hj
          exact hbuf hj
      · simp only [HubBuffer.flush_if_needed, hie]
        rw [if_neg (by simp), if_neg (by simpa using hcond)]
        simp [hbuf, hcond]

/-- C5: with `maxCount = 2` and a large `maxBytes`, adding "a" (byte 97),
"b" (98), "c" (99) one at a time causes exactly one automatic flush, during
the add of "b", dispatching the single batch ["a","b"] in one network call;
afterwards the pending buffer contains exactly ["c"], with totals
sent = 2, failed = 0, batches = 1. -/
theorem hub_add_abc_sequence :
    HubBuffer.add respNoFail [97] ⟨2, 1048576, [], 0, 0, 0⟩
      = (⟨2, 1048576, [[97]], 0, 0, 0⟩, Except.ok (), [])
    ∧ HubBuffer.add respNoFail [98] ⟨2, 1048576, [[97]], 0, 0, 0⟩
      = (⟨2, 1048576, [], 2, 0, 1⟩, Except.ok (), [[[97], [98]]])
    ∧ HubBuffer.add respNoFail [99] ⟨2, 1048576, [], 2, 0, 1⟩
      = (⟨2, 1048576, [[99]], 2, 0, 1⟩, Except.ok (), []) := by decide

/-- C10: when the sink dispatch inside a flush raises (a whole-dispatch
failure), the flush propagates the exception and the `HubBuffer` state is
unchanged: the buffer keeps all its items in order and the totals keep their
prior values, because the buffer is cleared and the counters incremented only
after the dispatch call returns. -/
theorem hub_flush_error_preserves_state (resp : Resp) (hb : HubBuffer) (force : Bool)
    (herr : (send_with_limits resp hb.buf hb.max_bytes hb.max_count).1 = Except.error ())
    (htrig : force = true ∨ hb.buf.length ≥ hb.max_count
        ∨ estimate_batch_bytes hb.buf ≥ hb.max_bytes) :
    (HubBuffer.flush_if_needed resp force hb).1 = hb
    ∧ (HubBuffer.flush_if_needed resp force hb).2.1 = Except.error () := by
  have hbuf : hb.buf ≠ [] := by
    intro hnil
    rw [hnil] at herr
    simp [send_with_limits, swlAux] at herr
  have hie := isEmpty_eq_false_of_ne_nil hbuf
  rcases hsw : send_with_limits resp hb.buf hb.max_bytes hb.max_count with ⟨r1, c⟩
  rw [hsw] at herr
  simp only at herr
  subst herr
  simp only [HubBuffer.flush_if_needed, hie]
  rw [if_neg (by simp), if_pos htrig, hsw]
  exact ⟨rfl, rfl⟩

theorem hub_flush_error_preserves_state_witness :
    (HubBuffer.flush_if_needed respFail true ⟨1, 10, [[97]], 0, 0, 0⟩).1
        = ⟨1, 10, [[97]], 0, 0, 0⟩
    ∧ (HubBuffer.flush_if_needed respFail true ⟨1, 10, [[97]], 0, 0, 0⟩).2.1
        = Except.error () :=
  hub_flush_error_preserves_state respFail ⟨1, 10, [[97]], 0, 0, 0⟩ true (by decide) (Or.inl rfl)

theorem hub_nonforced_flush_spec_witness :
    ((⟨2, 100, [[97]], 0, 0, 0⟩ : HubBuffer).buf.length < 2 →
       estimate_batch_bytes (⟨2, 100, [[97]], 0, 0, 0⟩ : HubBuffer).buf < 100 →
       HubBuffer.flush_if_needed respNoFail false ⟨2, 100, [[97]], 0, 0, 0⟩
         = (⟨2, 100, [[97]], 0, 0, 0⟩, Except.ok (), []))
    ∧ ((HubBuffer.flush_if_needed (respTotal (fun b => b.map (fun _ => false))) false
          ⟨2, 100, [[97]], 0, 0, 0⟩).2.2 ≠ []
        ↔ (⟨2, 100, [[97]], 0, 0, 0⟩ : HubBuffer).buf ≠ []
          ∧ ((⟨2, 100, [[97]], 0, 0, 0⟩ : HubBuffer).buf.length ≥ 2
             ∨ estimate_batch_bytes (⟨2, 100, [[97]], 0, 0, 0⟩ : HubBuffer).buf ≥ 100)) :=
  hub_nonforced_flush_spec respNoFail (fun b => b.map (fun _ => false)) ⟨2, 100, [[97]], 0, 0, 0⟩

/-- The event loop never reads the running error count: shifting it by one at
entry shifts the final count by one and changes nothing else. -/
theorem mainLoop_errors_shift (resp : Resp) :
    ∀ (es : List (Option Payload)) (hb : HubBuffer) (p e : Nat),
      mainLoop resp es (hb, p, e + 1)
        = ((mainLoop resp es (hb, p, e)).1, (mainLoop resp es (hb, p, e)).2.1,
           (mainLoop resp es (hb, p, e)).2.2 + 1) := by
  intro es
  induction es with
  | nil =>
      intro hb p e
      simp [mainLoop]
  | cons ev rest ih =>
      intro hb p e
      simp only [mainLoop, List.foldl_cons]
      cases ev with
      | none =>
          simp only [mainStep]
          exact ih hb p (e + 1)
      | some body =>
          by_cases hbl : isBlankPayload body = true
          · simp [mainStep, hbl]
            exact ih hb p e
          · rcases hadd : HubBuffer.add resp body hb with ⟨hb2, ex, c⟩
            simp [mainStep, hbl, hadd]
            cases ex with
            | ok u => exact ih hb2 (p + 1) e
            | error u => exact ih hb2 p (e + 1)

/-- C7: in bounded-batch mode a decode failure on one event does not stop
processing — the run over `pre ++ [failing event] ++ post` reaches exactly
the same final buffer state (everything in `post` still decoded and buffered,
same totals, same final flush) as the run without the failing event, with the
final processed count unchanged (the failed event is excluded) and the final
error count — hence the reported failed total `buffer.failed + error_count` —
larger by exactly one (the failed event is included). -/
theorem decode_error_isolated (resp : Resp) (maxCount maxBytes : Nat)
    (pre post : List (Option Payload)) :
    (mainRun resp maxCount maxBytes (pre ++ Option.none :: post)).1
      = (mainRun resp maxCount maxBytes (pre ++ post)).1
    ∧ (mainRun resp maxCount maxBytes (pre ++ Option.none :: post)).2.1
      = (mainRun resp maxCount maxBytes (pre ++ post)).2.1
    ∧ (mainRun resp maxCount maxBytes (pre ++ Option.none :: post)).2.2.1
      = (mainRun resp maxCount maxBytes (pre ++ post)).2.2.1 + 1
    ∧ (mainRun resp maxCount maxBytes (pre ++ Option.none :: post)).1.failed
        + (mainRun resp maxCount maxBytes (pre ++ Option.none :: post)).2.2.1
      = (mainRun resp maxCount maxBytes (pre ++ post)).1.failed
        + (mainRun resp maxCount maxBytes (pre ++ post)).2.2.1 + 1 := by
  have key : mainLoop resp (pre ++ Option.none :: post) (⟨maxCount, maxBytes, [], 0, 0, 0⟩, 0, 0)
      = ((mainLoop resp (pre ++ post) (⟨maxCount, maxBytes, [], 0, 0, 0⟩, 0, 0)).1,
         (mainLoop resp (pre ++ post) (⟨maxCount, maxBytes, [], 0, 0, 0⟩, 0, 0)).2.1,
         (mainLoop resp (pre ++ post) (⟨maxCount, maxBytes, [], 0, 0, 0⟩, 0, 0)).2.2 + 1) := by
    simp only [mainLoop, List.foldl_append, List.foldl_cons]
    simp only [mainStep]
    exact mainLoop_errors_shift resp post
      (List.foldl (mainStep resp) (⟨maxCount, maxBytes, [], 0, 0, 0⟩, 0, 0) pre).1
      (List.foldl (mainStep resp) (⟨maxCount, maxBytes, [], 0, 0, 0⟩, 0, 0) pre).2.1
      (List.foldl (mainStep resp) (⟨maxCount, maxBytes, [], 0, 0, 0⟩, 0, 0) pre).2.2
  simp only [mainRun, key]
  simp [Nat.add_assoc]

/-- C8 counterexample: in log-only mode (no OCI sender), a non-forced flush
on a buffer that is over the count threshold neither clears the buffer nor
prints a notice — so the claim that every flush in log-only mode clears the
buffer and prints a notice fails on the code. -/
theorem logonly_flush_cex :
    (EventHubDrainer.flush_if_needed ⟨none, 1048576, 1, [[97]], 0, 0, 0⟩ false).1.buffer ≠ []
    ∧ (EventHubDrainer.flush_if_needed ⟨none, 1048576, 1, [[97]], 0, 0, 0⟩ false).2.1 = 0 := by
  constructor
  · simp [EventHubDrainer.flush_if_needed]
  · rfl

/-- C8 (amended): in log-only mode no sink dispatch is ever performed; a
forced flush on a non-empty buffer discards the buffer and prints one console
notice; a non-forced flush, or a flush on an empty buffer, is a no-op that
prints nothing. -/
theorem logonly_flush_spec (st : EventHubDrainer) (force : Bool)
    (h : st.oci_sender = none) :
    (EventHubDrainer.flush_if_needed st force).2.2.1 = []
    ∧ (force = true → st.buffer ≠ [] →
        EventHubDrainer.flush_if_needed st force
          = ({ st with buffer := [] }, 1, [], Except.ok ()))
    ∧ (force = false ∨ st.buffer = [] →
        EventHubDrainer.flush_if_needed st force = (st, 0, [], Except.ok ())) := by
  refine ⟨?_, ?_, ?_⟩
  · simp only [EventHubDrainer.flush_if_needed, h]
    by_cases hc : force = true ∧ ¬ st.buffer.isEmpty = true
    · rw [if_pos hc]
    · rw [if_neg hc]
  · intro hf hb
    simp only [EventHubDrainer.flush_if_needed, h]
    rw [if_pos ⟨hf, by simp [hb]⟩]
  · intro hd
    simp only [EventHubDrainer.flush_if_needed, h]
    rw [if_neg ?_]
    rcases hd with hf | hb
    · rintro ⟨h1, _⟩
      rw [hf] at h1
      cases h1
    · rintro ⟨_, h2⟩
      exact h2 (by simp [hb])

theorem logonly_flush_spec_witness :
    (EventHubDrainer.flush_if_needed ⟨none, 1048576, 1, [[97]], 0, 0, 0⟩ true).2.2.1 = []
    ∧ (true = true → (⟨none, 1048576, 1, [[97]], 0, 0, 0⟩ : EventHubDrainer).buffer ≠ [] →
        EventHubDrainer.flush_if_needed ⟨none, 1048576, 1, [[97]], 0, 0, 0⟩ true
          = (⟨none, 1048576, 1, [], 0, 0, 0⟩, 1, [], Except.ok ()))
    ∧ (true = false ∨ (⟨none, 1048576, 1, [[97]], 0, 0, 0⟩ : EventHubDrainer).buffer = [] →
        EventHubDrainer.flush_if_needed ⟨none, 1048576, 1, [[97]], 0, 0, 0⟩ true
          = (⟨none, 1048576, 1, [[97]], 0, 0, 0⟩, 0, [], Except.ok ())) :=
  logonly_flush_spec ⟨none, 1048576, 1, [[97]], 0, 0, 0⟩ true rfl

end AzureLogs2OCI
